import Mathlib

/-!
Verification of the EchoCode AI interviewer orchestration core.

This file gives a shallow embedding, in Lean 4, of the orchestration core of
the EchoCode repository and proves (or refutes) the frozen claims about it:

* the sliding-window rate limiter (`src/src/lib/rateLimit/index.ts`),
* the rule-based fallback analyzer (`src/src/lib/fallbackAnalyzer.ts`),
* the debounce analysis scheduler (`src/src/lib/analysisScheduler.ts`),
* the global audio playback queue (`src/app/layout.tsx`, `ElevenLabsTTS`),
* the `POST /api/analyze` route (`src/app/api/analyze/route.ts`).

Conventions of the embedding:

* JS `number` timestamps become `Int` (they are integer milliseconds).
* JS strings become Lean `String`; character-level operations work on
  `String.data : List Char`.  JS `slice`/`trim` index by UTF-16 units; for
  the characters these claims touch the two notions coincide.
* Asynchronous code is modelled by explicit state passing; the outcome of an
  external call (fetch, audio decode, AI backend) is an oracle parameter.
* Timers are modelled explicitly; real time is abstracted into the order of
  events (a debounce hypothesis "calls arrive faster than debounceMs apart"
  becomes "no timer fires between the calls").
-/

namespace EchoCode

/-! ### JavaScript string primitives

ECMAScript white space and word characters, used by `trim`, `\s` and `\w`.
The set below is the ECMAScript `WhiteSpace ∪ LineTerminator` set. -/

/-- ECMAScript white-space test: the character class matched by `\s` and
stripped by `String.prototype.trim`. -/
def isJsWs (c : Char) : Bool :=
  let n := c.toNat
  n = 0x20 || n = 0x09 || n = 0x0a || n = 0x0d || n = 0x0b || n = 0x0c ||
  n = 0xa0 || n = 0x1680 || (0x2000 ≤ n && n ≤ 0x200a) ||
  n = 0x2028 || n = 0x2029 || n = 0x202f || n = 0x205f || n = 0x3000 ||
  n = 0xfeff

/-- ECMAScript `\w` character class: `[A-Za-z0-9_]`. -/
def isWordChar (c : Char) : Bool :=
  let n := c.toNat
  (0x41 ≤ n && n ≤ 0x5a) || (0x61 ≤ n && n ≤ 0x7a) ||
  (0x30 ≤ n && n ≤ 0x39) || n = 0x5f

/-- ECMAScript `[0-9]` character class. -/
def isDigitChar (c : Char) : Bool :=
  0x30 ≤ c.toNat && c.toNat ≤ 0x39

/-- Strip leading and trailing ECMAScript white space from a character list. -/
def trimChars (l : List Char) : List Char :=
  ((l.dropWhile isJsWs).reverse.dropWhile isJsWs).reverse

/-- JavaScript `String.prototype.trim`. -/
def jsTrim (s : String) : String :=
  String.mk (trimChars s.data)

/-! ### Rate limiter (`src/src/lib/rateLimit/index.ts`)

The per-client timestamp list stored in the LRU cache is modelled as a
`List Int`; `checkRateLimit` takes the client's current list together with
`Date.now()` and returns the result record plus the list written back. -/

/-- `RATE_LIMIT.WINDOW_MS` — one minute. -/
def WINDOW_MS : Int := 60000

/-- `RATE_LIMIT.MAX_REQUESTS` — thirty requests per window. -/
def MAX_REQUESTS : Nat := 30

/-- Result record of `checkRateLimit`. -/
structure RLResult where
  isRateLimited : Bool
  remaining : Int
  reset : Int
deriving DecidableEq, Repr

/-- Integer model of JavaScript `Math.ceil(a / 1000)`: `Int` division in Lean
rounds toward negative infinity for a positive divisor, so adding `999`
first yields the ceiling. -/
def ceilDiv1000 (a : Int) : Int := (a + 999) / 1000

/-- The pruning step `tokenState.filter(time => now - time < WINDOW_MS)`. -/
def pruneWindow (tokenState : List Int) (now : Int) : List Int :=
  tokenState.filter (fun time => now - time < WINDOW_MS)

/-- `checkRateLimit(ip)` from `src/src/lib/rateLimit/index.ts`, with the
cache read/write made explicit: the argument is the stored timestamp list
(`tokenCache.get(ip) || []`) and the second component of the result is the
list written back by `tokenCache.set`.  Note that the source appends `now`
and stores the new list before even looking at `isRateLimited`, i.e. also
on a denied check. -/
def checkRateLimit (tokenState : List Int) (now : Int) : RLResult × List Int :=
  let recentRequests := pruneWindow tokenState now
  let isRateLimited := decide (MAX_REQUESTS ≤ recentRequests.length)
  let newRequests := recentRequests ++ [now]
  ({ isRateLimited := isRateLimited,
     remaining := max 0 ((MAX_REQUESTS : Int) - newRequests.length),
     reset := ceilDiv1000 (newRequests.headI + WINDOW_MS - now) },
   newRequests)

/-- Run a sequence of `checkRateLimit` calls for one client, threading the
stored timestamp list; returns the list of results and the final state. -/
def runChecks (tokenState : List Int) : List Int → List RLResult × List Int
  | [] => ([], tokenState)
  | now :: rest =>
    let step := checkRateLimit tokenState now
    let tailRun := runChecks step.2 rest
    (step.1 :: tailRun.1, tailRun.2)

/-! ### Fallback analyzer (`src/src/lib/fallbackAnalyzer.ts`)

The rule patterns are the five regular expressions of `RULES`.  They use
only literal characters and the classes `\s*`, `\s+`, `\w+`, and in each
pattern every class is followed by a literal character that the class
itself cannot match, so a greedy matcher that never backtracks has exactly
the ECMAScript regex semantics.  `RegExp.prototype.test` searches for a
match starting at any position of the string. -/

/-- Token of the tiny regex language the rule patterns need: a literal
character, `\s*`, `\s+`, or `\w+`. -/
inductive RTok where
  | lit (c : Char)
  | wsStar
  | wsPlus
  | wordPlus
deriving DecidableEq, Repr

/-- Literal tokens for a literal fragment of a pattern. -/
def litToks (s : String) : List RTok :=
  s.data.map RTok.lit

/-- Match a token sequence at the start of the character list (greedy,
no backtracking — see the section comment for why this is exact here). -/
def matchToksFrom : List RTok → List Char → Bool
  | [], _ => true
  | RTok.lit _ :: _, [] => false
  | RTok.lit c :: ts, x :: xs => x = c && matchToksFrom ts xs
  | RTok.wsStar :: ts, xs => matchToksFrom ts (xs.dropWhile isJsWs)
  | RTok.wsPlus :: _, [] => false
  | RTok.wsPlus :: ts, x :: xs => isJsWs x && matchToksFrom ts (xs.dropWhile isJsWs)
  | RTok.wordPlus :: _, [] => false
  | RTok.wordPlus :: ts, x :: xs =>
    isWordChar x && matchToksFrom ts (xs.dropWhile isWordChar)

/-- `RegExp.prototype.test`: the pattern matches starting at some position. -/
def patternTestChars (ts : List RTok) : List Char → Bool
  | [] => matchToksFrom ts []
  | x :: xs => matchToksFrom ts (x :: xs) || patternTestChars ts xs

/-- Pattern test on a string. -/
def patternTest (ts : List RTok) (s : String) : Bool :=
  patternTestChars ts s.data

/-- An `AnalysisRule` record of `fallbackAnalyzer.ts`. -/
structure AnalysisRule where
  pattern : List RTok
  feedback : String
  priority : Nat
deriving DecidableEq, Repr

/-- The immutable `RULES` array, in source order, with its five regexes
translated token by token. -/
def RULES : List AnalysisRule := [
  { pattern := litToks "for" ++ [RTok.wsStar, RTok.lit '('],
    feedback := "I see you're using a loop. Have you considered the termination condition?",
    priority := 1 },
  { pattern := litToks "if" ++ [RTok.wsStar, RTok.lit '('],
    feedback := "Good use of conditional logic! Have you considered all possible cases?",
    priority := 1 },
  { pattern := litToks "function" ++ [RTok.wsPlus, RTok.wordPlus, RTok.lit '('],
    feedback := "Nice function definition! Does it have a clear single responsibility?",
    priority := 2 },
  { pattern := litToks "const" ++ [RTok.wsPlus, RTok.wordPlus, RTok.wsStar,
      RTok.lit '=', RTok.wsStar, RTok.lit '(', RTok.lit ')', RTok.wsStar,
      RTok.lit '=', RTok.lit '>'],
    feedback := "I see an arrow function. Have you considered error handling for this?",
    priority := 2 },
  { pattern := litToks "console.log",
    feedback := "Using console.log for debugging? That's a good start! Would you like to learn about more advanced debugging techniques?",
    priority := 3 }
]

/-- Insert a rule into a descending-sorted list, before the first element of
lower-or-equal priority.  Inserting earlier elements later (see
`sortRulesDesc`) makes this exactly the stable descending sort that
`[...RULES].sort((a, b) => b.priority - a.priority)` performs. -/
def insertRuleDesc (r : AnalysisRule) : List AnalysisRule → List AnalysisRule
  | [] => [r]
  | x :: xs =>
    if x.priority ≤ r.priority then r :: x :: xs else x :: insertRuleDesc r xs

/-- Stable sort by descending priority. -/
def sortRulesDesc : List AnalysisRule → List AnalysisRule
  | [] => []
  | r :: rs => insertRuleDesc r (sortRulesDesc rs)

/-- The `sortedRules` local of `analyze`. -/
def sortedRules : List AnalysisRule := sortRulesDesc RULES

/-- The fixed "keep going" message for empty or too-short code. -/
def KEEP_GOING_MSG : String :=
  "Keep going! I'll provide feedback once you've written more code."

/-- The `defaultResponses` pool used when no rule matches. -/
def defaultResponses : List String := [
  "Looking good so far! Keep going!",
  "I see you're making progress. Would you like a hint?",
  "Nice work! Have you considered edge cases?",
  "Keep it up! Would you like me to review your approach?"
]

/-- `FallbackAnalyzer.analyze`.  The declared return type `string | null`
becomes `Option String`.  The pseudo-random pick
`Math.floor(Math.random() * defaultResponses.length)` is a value in
`0 ≤ i < 4`, passed in as the oracle argument `rand : Fin 4`. -/
def analyze (code : String) (rand : Fin 4) : Option String :=
  if code = "" ∨ (jsTrim code).length < 10 then
    some KEEP_GOING_MSG
  else
    match sortedRules.find? (fun rule => patternTest rule.pattern code) with
    | some rule => some rule.feedback
    | none => some (defaultResponses.get ⟨rand.val, rand.isLt⟩)

/-! ### Analysis scheduler (`src/src/lib/analysisScheduler.ts`)

The `AnalysisScheduler` keeps `pendingAnalyses : Map<string, PendingAnalysis>`
where a `PendingAnalysis` holds a `setTimeout` handle and a timestamp.  The
ambient timer runtime is modelled explicitly: `timers` is the table of armed
timers (`setTimeout` arms a fresh id, `clearTimeout` disarms it), each armed
timer holding the session id and the `code` payload captured by its callback
closure.  `fireTimer` is the runtime firing a timer: a disarmed timer never
runs, an armed one invokes `callback(code)` and deletes the session's map
entry, which is exactly the body of the closure in `scheduleAnalysis`.
Real time (`debounceMs`) is abstracted into the order of events: "calls
arrive faster than `debounceMs` apart" becomes "no fire event occurs between
the `scheduleAnalysis` calls". -/

/-- State of the scheduler plus the ambient timer runtime. -/
structure SchedulerState where
  nextId : Nat
  timers : Nat → Option (String × String)
  pendingAnalyses : String → Option (Nat × Nat)

/-- The pristine scheduler: no armed timers, no pending analyses. -/
def initScheduler : SchedulerState :=
  { nextId := 0, timers := fun _ => none, pendingAnalyses := fun _ => none }

/-- `cancelPendingAnalysis(sessionId)`: `clearTimeout` the pending timer (if
any) and delete the map entry; a no-op when nothing is pending. -/
def cancelPendingAnalysis (st : SchedulerState) (sessionId : String) :
    SchedulerState :=
  match st.pendingAnalyses sessionId with
  | none => st
  | some (tid, _) =>
    { st with
      timers := fun i => if i = tid then none else st.timers i,
      pendingAnalyses := fun s =>
        if s = sessionId then none else st.pendingAnalyses s }

/-- `scheduleAnalysis(sessionId, code, callback, debounceMs)`: first cancel
any pending analysis for the session, then arm a fresh timer whose callback
will run `callback(code)` and delete the entry, and record it in the map. -/
def scheduleAnalysis (st : SchedulerState) (sessionId code : String)
    (now : Nat) : SchedulerState :=
  let st1 := cancelPendingAnalysis st sessionId
  { nextId := st1.nextId + 1,
    timers := fun i =>
      if i = st1.nextId then some (sessionId, code) else st1.timers i,
    pendingAnalyses := fun s =>
      if s = sessionId then some (st1.nextId, now) else st1.pendingAnalyses s }

/-- The timer runtime fires timer `tid`: nothing happens if it is not armed
(it was cleared or never existed); otherwise its callback runs, producing
the invocation `(sessionId, code)` and deleting the session's entry. -/
def fireTimer (st : SchedulerState) (tid : Nat) :
    SchedulerState × Option (String × String) :=
  match st.timers tid with
  | none => (st, none)
  | some (sessionId, code) =>
    ({ nextId := st.nextId,
       timers := fun i => if i = tid then none else st.timers i,
       pendingAnalyses := fun s =>
         if s = sessionId then none else st.pendingAnalyses s },
     some (sessionId, code))

/-- A burst of `scheduleAnalysis` calls for one session with no intervening
fire or cancel events. -/
def scheduleMany (st : SchedulerState) (sessionId : String) :
    List (String × Nat) → SchedulerState
  | [] => st
  | (code, now) :: rest =>
    scheduleMany (scheduleAnalysis st sessionId code now) sessionId rest

/-- Well-formedness tying the map to the timer table: every armed timer is
the one recorded for its session, every recorded entry is an armed timer,
and ids at or above `nextId` are free. -/
def SchedWF (st : SchedulerState) : Prop :=
  (∀ tid sid code, st.timers tid = some (sid, code) →
    ∃ ts, st.pendingAnalyses sid = some (tid, ts)) ∧
  (∀ sid tid ts, st.pendingAnalyses sid = some (tid, ts) →
    ∃ code, st.timers tid = some (sid, code)) ∧
  (∀ tid, st.nextId ≤ tid → st.timers tid = none)

/-! ### Audio playback queue (`src/app/layout.tsx`, `ElevenLabsTTS`)

The module-level state is `audioQueue` (a list of items `{text, onEnd?}`)
and the flag `isPlaying`.  Items are modelled by their `text`: the `onEnd`
callbacks and React state setters do not influence the queue or the flag.
`processQueue` is an `async` function; its per-item outcome (the fetch and
the audio decoding) is an oracle `Nat → PlayAttemptResult`, consulted once
per playback attempt:

* `fetchError` — the `fetch` threw or `!response.ok`: the inner catch at the
  fetch reports the error through `onError` and then does a bare `return`,
  leaving `isPlaying` set and the item still at the head of the queue;
* `audioError` — empty `arrayBuffer`, suspended-context resume failure or
  `decodeAudioData` failure: the second catch reports through `onError`,
  clears the flag, shifts the queue and recurses;
* `success` — playback completes; `onended` shifts the queue, clears the
  flag and recurses.

The `Empty text provided for TTS` throw is caught by the outer catch, which
shifts, clears the flag and recurses but only logs (no `onError` call).
The second component of the result collects the texts of the items whose
failure was reported through `onError`, in order. -/

/-- Outcome of one playback attempt (the two awaited external calls). -/
inductive PlayAttemptResult where
  | fetchError
  | audioError
  | success
deriving DecidableEq, Repr

/-- The module-level queue and single-flight flag of `layout.tsx`. -/
structure AudioQueueState where
  audioQueue : List String
  isPlaying : Bool
deriving DecidableEq, Repr

/-- The body of `processQueue` once past the `isPlaying` guard, recursing
through the queue; `k` indexes the oracle. -/
def processQueueAux : List String → (Nat → PlayAttemptResult) → Nat →
    AudioQueueState × List String
  | [], _, _ => (⟨[], false⟩, [])
  | currentText :: rest, oracle, k =>
    if jsTrim currentText = "" then
      processQueueAux rest oracle k
    else
      match oracle k with
      | PlayAttemptResult.fetchError => (⟨currentText :: rest, true⟩, [currentText])
      | PlayAttemptResult.audioError =>
        let r := processQueueAux rest oracle (k + 1)
        (r.1, currentText :: r.2)
      | PlayAttemptResult.success => processQueueAux rest oracle (k + 1)

/-- `processQueue`: a no-op while `isPlaying` or when the queue is empty;
otherwise processes items until the queue drains or a fetch failure leaves
the flag set.  Returns the final state and the error reports. -/
def processQueue (st : AudioQueueState) (oracle : Nat → PlayAttemptResult)
    (k : Nat) : AudioQueueState × List String :=
  if st.isPlaying then (st, []) else processQueueAux st.audioQueue oracle k

/-- The synchronous part of `processQueueAux`: an `async` call runs
synchronously up to its first `await` (the `fetch`), so a `processQueue()`
call from `speak` discards empty-text heads, then marks `isPlaying` and
suspends with the head still queued. -/
def processQueueSyncAux : List String → AudioQueueState
  | [] => ⟨[], false⟩
  | currentText :: rest =>
    if jsTrim currentText = "" then processQueueSyncAux rest
    else ⟨currentText :: rest, true⟩

/-- The synchronously observable effect of a `processQueue()` call. -/
def processQueueSyncStep (st : AudioQueueState) : AudioQueueState :=
  if st.isPlaying then st else processQueueSyncAux st.audioQueue

/-- `speak` from `layout.tsx`: trim the text, bail out without an API key,
de-duplicate against queued texts, push, kick `processQueue` when idle
(observing only its synchronous part), then drop the queue head when the
queue holds more than five items. -/
def speak (st : AudioQueueState) (text : String) (hasApiKey : Bool) :
    AudioQueueState :=
  let textToSpeak := jsTrim text
  if textToSpeak = "" then st
  else if !hasApiKey then st
  else if st.audioQueue.contains textToSpeak then st
  else
    let st1 : AudioQueueState := ⟨st.audioQueue ++ [textToSpeak], st.isPlaying⟩
    let st2 := if !st1.isPlaying then processQueueSyncStep st1 else st1
    if 5 < st2.audioQueue.length then ⟨st2.audioQueue.tail, st2.isPlaying⟩
    else st2

/-! ### The analyze route (`src/app/api/analyze/route.ts`)

The file holds two versions of the route; the one modelled here is the
first (current) one, whose `POST` spans lines 28-274.  The embedding takes
the parsed JSON body as an `AnalyzeRequest` (a failed `request.json()` and
the outermost 500 handler are not modelled), the stored rate-limit list for
the client as in `checkRateLimit`, and the outcome of the OpenRouter call
as a `BackendOutcome` oracle; non-string JSON fields are modelled as absent
(`none`).  The diagnostic `error` field of the JSON responses is omitted:
no claim inspects it.  `Math.random` inside `FallbackAnalyzer.analyze` is
the same `Fin 4` oracle as before. -/

/-- `sanitizeInput`: empty in, empty out; otherwise `text.slice(0, 1000)`
(JS slices by UTF-16 units; modelled as the first 1000 characters). -/
def sanitizeInput (text : String) : String :=
  if text = "" then "" else String.mk (text.data.take 1000)

/-- The backtick character, `0x60`. -/
def backtickChar : Char := Char.ofNat 96

/-- Split at the first run of three consecutive backticks: returns the part
before it and the part after it, with a length certificate for termination
of `removeCodeBlocks`. -/
def findTicks : (l : List Char) →
    Option (List Char × { rest : List Char // rest.length + 3 ≤ l.length })
  | a :: b :: c :: rest =>
    if a = backtickChar && b = backtickChar && c = backtickChar then
      some ([], ⟨rest, by simp⟩)
    else
      match findTicks (b :: c :: rest) with
      | none => none
      | some (before, ⟨rest2, h⟩) =>
        some (a :: before, ⟨rest2, by simp at h ⊢; omega⟩)
  | _ => none

/-- `feedback.replace(/```[\s\S]*?```/g, '')`: drop every non-greedy pair
of triple-backtick fences with its content; an opening fence with no
closing one is left in place (the regex then has no match at all, since
fewer than two fences remain). -/
def removeCodeBlocks (l : List Char) : List Char :=
  match findTicks l with
  | none => l
  | some (before1, ⟨rest1, h1⟩) =>
    match findTicks rest1 with
    | none => l
    | some (_, ⟨rest2, h2⟩) => before1 ++ removeCodeBlocks rest2
termination_by l.length
decreasing_by omega

/-- `feedback.replace(/[`*_~]/g, '')`. -/
def removeFormatChars (l : List Char) : List Char :=
  l.filter (fun c => !(c = backtickChar || c = '*' || c = '_' || c = '~'))

/-- The suffix after the first `>`, with a length certificate. -/
def findGt : (l : List Char) → Option { rest : List Char // rest.length < l.length }
  | [] => none
  | c :: rest =>
    if c = '>' then some ⟨rest, by simp⟩
    else
      match findGt rest with
      | none => none
      | some ⟨r, h⟩ => some ⟨r, by simp; omega⟩

/-- `feedback.replace(/<[^>]*>/g, '')`: drop each `<` together with
everything up to the next `>`; a `<` with no later `>` stays (the regex
cannot match there, nor at any later `<`). -/
def removeHtmlTags (l : List Char) : List Char :=
  match l with
  | [] => []
  | c :: rest =>
    if c = '<' then
      match findGt rest with
      | some ⟨after, h⟩ => removeHtmlTags after
      | none => c :: removeHtmlTags rest
    else c :: removeHtmlTags rest
termination_by l.length
decreasing_by all_goals simp <;> omega

/-- Body of `collapseWs`; the flag records whether the previous character
was part of a white-space run already collapsed. -/
def collapseWsAux : Bool → List Char → List Char
  | _, [] => []
  | prevWs, c :: rest =>
    if isJsWs c then
      if prevWs then collapseWsAux true rest
      else ' ' :: collapseWsAux true rest
    else c :: collapseWsAux false rest

/-- `feedback.replace(/\s+/g, ' ')`: each maximal white-space run becomes a
single space. -/
def collapseWs (l : List Char) : List Char :=
  collapseWsAux false l

/-- `feedback.replace(/^\s*[0-9]+\.?\s*|^\s*[\-•*]\s*/, '')`: both
alternatives are anchored, so only a match at the very start is possible;
the first alternative (leading numbering) is preferred, else a leading
bullet; no match leaves the text unchanged. -/
def stripLeadingBullet (l : List Char) : List Char :=
  let l1 := l.dropWhile isJsWs
  if l1.takeWhile isDigitChar ≠ [] then
    let l2 := l1.dropWhile isDigitChar
    let l3 := match l2 with
      | '.' :: r => r
      | _ => l2
    l3.dropWhile isJsWs
  else
    match l1 with
    | c :: r =>
      if c = '-' || c = '•' || c = '*' then r.dropWhile isJsWs else l
    | [] => l

/-- The feedback clean-up chain of the route (lines 167-173), ending in the
final `.trim()`. -/
def cleanupFeedback (s : String) : String :=
  String.mk (trimChars (stripLeadingBullet (collapseWs (removeHtmlTags
    (removeFormatChars (removeCodeBlocks s.data))))))

/-- `/[?？]\s*$/.test(feedback)`: the last non-white-space character is a
question mark (ASCII or full-width). -/
def endsWithQuestion (l : List Char) : Bool :=
  match l.reverse.dropWhile isJsWs with
  | c :: _ => c = '?' || c = '？'
  | [] => false

/-- Drop a literal prefix, returning the remainder on success. -/
def dropLit : List Char → List Char → Option (List Char)
  | [], l => some l
  | _ :: _, [] => none
  | k :: ks, c :: rest => if c = k then dropLit ks rest else none

/-- Match `kw` then `\s+` then capture `([a-zA-Z0-9_]+)` at the start of
`l`; greedy matching is exact here because `\s` and `\w` are disjoint. -/
def matchKwCaptureAt (kw : List Char) (l : List Char) : Option (List Char) :=
  match dropLit kw l with
  | none => none
  | some r =>
    match r with
    | [] => none
    | c :: _ =>
      if isJsWs c then
        let w := (r.dropWhile isJsWs).takeWhile isWordChar
        if w = [] then none else some w
      else none

/-- `code.match(/kw\s+([a-zA-Z0-9_]+)/)`: leftmost match wins; returns the
captured identifier. -/
def findKwCapture (kw : List Char) : List Char → Option (List Char)
  | [] => none
  | c :: rest =>
    match matchKwCaptureAt kw (c :: rest) with
    | some w => some w
    | none => findKwCapture kw rest

/-- JavaScript `x || 'default'` for an optional string field. -/
def strOr (o : Option String) (d : String) : String :=
  match o with
  | some s => if s = "" then d else s
  | none => d

/-- JavaScript string truthiness of an optional field. -/
def isTruthy (o : Option String) : Bool :=
  match o with
  | some s => s ≠ ""
  | none => false

/-- The context-aware fallback question of the post-processing step (route
lines 178-191).  For the string-typed `question` values modelled here the
`question.title` branch can never be taken (`.title` of a string is
`undefined`), so both non-code branches yield the generic question. -/
def fallbackQuestionFor (sanitizedCode : String) : String :=
  if sanitizedCode ≠ "" then
    match findKwCapture "def".data sanitizedCode.data with
    | some w =>
      "Can you explain why you chose to implement the function '" ++
        String.mk w ++
        "' in this way, and what trade-offs or alternatives you considered?"
    | none =>
      match findKwCapture "function".data sanitizedCode.data with
      | some w =>
        "Can you explain why you chose to implement the function '" ++
          String.mk w ++
          "' in this way, and what trade-offs or alternatives you considered?"
      | none =>
        "What is a possible optimization or alternative approach you could try for this problem?"
  else
    "What is a possible optimization or alternative approach you could try for this problem?"

/-- `feedback.replace(/[.?!]*$/, '')`: strip the trailing run of `.?!`. -/
def stripTrailingPunct (l : List Char) : List Char :=
  (l.reverse.dropWhile (fun c => c = '.' || c = '?' || c = '!')).reverse

/-- The post-processing step ensuring the feedback ends with a question
(route lines 176-194). -/
def ensureEndsWithQuestion (feedback sanitizedCode : String) : String :=
  if endsWithQuestion feedback.data then feedback
  else
    String.mk (stripTrailingPunct feedback.data) ++ " " ++
      fallbackQuestionFor sanitizedCode

/-- A chat message sent to the backend. -/
structure ChatMsg where
  role : String
  content : String
deriving DecidableEq, Repr

/-- The system-prompt rule text (route lines 91-111).  The prompt prose is
collaborator material the claims never inspect (spec section 1 places
prompt text out of scope); the constant is abbreviated to its opening
sentence. -/
def SYSTEM_RULES : String :=
  "You are an expert AI coding interviewer whose sole purpose is to probe, challenge, and guide candidates through deep, technical questions about their code, design, and architecture."

/-- `JSON.stringify` of a string value (quoting; escaping of special
characters inside the value is not modelled — it does not affect any
claim, which only compare prompts for equality). -/
def jsonStringify (s : String) : String :=
  "\"" ++ s ++ "\""

/-- The system-message content (route lines 91-120). -/
def buildSystemContent (question : Option String)
    (language sanitizedCode : String) (conversation : Option String) :
    String :=
  SYSTEM_RULES ++ "\n\nCurrent Question:\n" ++
    strOr question "General technical discussion" ++
    "\n\nCandidate's Code (" ++ language ++ "):\n" ++
    (if sanitizedCode ≠ "" then sanitizedCode else "No code provided") ++
    "\n\nConversation History:\n" ++
    strOr conversation "No conversation history yet."

/-- The `messages` array sent to the backend (route lines 88-138). -/
def buildMessages (question : Option String) (language sanitizedCode : String)
    (conversation currentMessage : Option String) (isChat : Bool) :
    List ChatMsg :=
  { role := "system",
    content := buildSystemContent question language sanitizedCode
      conversation } ::
  (if isChat && isTruthy currentMessage then
    [{ role := "user", content := strOr currentMessage "" },
     { role := "system",
       content := "The user has provided the above message. Continue the interview naturally based on the current context, code, and conversation history." }]
  else
    [{ role := "user",
       content := "Question: " ++
         jsonStringify (strOr question "General code review") ++ "\n" ++
         "\nCode (" ++ language ++ "):\n" ++ sanitizedCode ++
         "\n\nPlease analyze this " ++ language ++
         " code and provide feedback." }])

/-- The parsed JSON body of a `POST /api/analyze` request. -/
structure AnalyzeRequest where
  question : Option String
  code : Option String
  language : Option String
  conversation : Option String
  currentMessage : Option String
  isChat : Bool
deriving DecidableEq, Repr

/-- The response body (plus HTTP status); the diagnostic `error` field is
omitted. -/
structure AnalyzeResponse where
  feedback : String
  isFallback : Bool
  status : Nat
deriving DecidableEq, Repr

/-- Outcome of the OpenRouter call: `throws` covers a thrown error of any
kind (timeout/abort, network failure, HTTP error status — the inner catch
rethrows them with the message taken here as the payload); `noMessage` is a
response without `choices[0].message`; `message` carries the `content` and
`reasoning` fields. -/
inductive BackendOutcome where
  | throws (errorMsg : String)
  | noMessage
  | message (content : Option String) (reasoning : Option String)
deriving DecidableEq, Repr

/-- `language` validation: `!language || typeof language !== 'string'`. -/
def languageValid (language : Option String) : Bool :=
  match language with
  | some l => l ≠ ""
  | none => false

/-- `const sanitizedCode = code ? sanitizeInput(code) : ''`. -/
def sanitizedCodeOf (code : Option String) : String :=
  match code with
  | some c => if c = "" then "" else sanitizeInput c
  | none => ""

/-- `String.prototype.includes`. -/
def containsSub (needle : List Char) : List Char → Bool
  | [] => (dropLit needle []).isSome
  | c :: rest => (dropLit needle (c :: rest)).isSome || containsSub needle rest

/-- `hay.includes(needle)` on strings. -/
def containsStr (hay needle : String) : Bool :=
  containsSub needle.data hay.data

/-- Extraction of the feedback source field (route lines 157-164):
`message.content` if truthy, else `message.reasoning` if truthy, else the
`Unexpected response format` error. -/
def pickField (content reasoning : Option String) : Option String :=
  match content with
  | some c =>
    if c = "" then
      match reasoning with
      | some r => if r = "" then none else some r
      | none => none
    else some c
  | none =>
    match reasoning with
    | some r => if r = "" then none else some r
    | none => none

/-- The fallback path of the outer catch (route lines 222-257): classify
the error message, run `FallbackAnalyzer.analyze(sanitizedCode)`, and fall
back to the template when it returns a falsy value (it never does — see
`analyze_some_ne_empty`). -/
def fallbackResponse (sanitizedCode errorMsg : String) (rand : Fin 4) :
    AnalyzeResponse :=
  let errorMessage :=
    if containsStr errorMsg "timed out" then
      "The analysis took too long to complete"
    else if containsStr errorMsg "rate limit" then
      "Rate limit exceeded. Please try again in a moment."
    else if containsStr errorMsg "API key" then
      "Configuration issue with the analysis service"
    else "An error occurred while analyzing your code"
  let fb := match analyze sanitizedCode rand with
    | some s =>
      if s = "" then "I've reviewed your code. (" ++ errorMessage ++ ")"
      else s
    | none => "I've reviewed your code. (" ++ errorMessage ++ ")"
  { feedback := fb, isFallback := true, status := 200 }

/-- The body of `POST` past the rate-limit gate, as a function of the
fields it reads. -/
def POSTvalidated (language : Option String) (sanitizedCode : String)
    (isChat : Bool) (outcome : BackendOutcome) (rand : Fin 4) :
    AnalyzeResponse :=
  if ¬ languageValid language then
    { feedback := "Please specify a programming language for the code analysis.",
      isFallback := true, status := 400 }
  else if ¬ isChat ∧ (sanitizedCode = "" ∨ (jsTrim sanitizedCode).length < 10) then
    { feedback := "Please provide more code (at least 10 characters) for meaningful feedback.",
      isFallback := true, status := 400 }
  else
    match outcome with
    | BackendOutcome.throws msg => fallbackResponse sanitizedCode msg rand
    | BackendOutcome.noMessage =>
      fallbackResponse sanitizedCode "No message in response" rand
    | BackendOutcome.message content reasoning =>
      match pickField content reasoning with
      | none => fallbackResponse sanitizedCode "Unexpected response format" rand
      | some raw =>
        let fb1 := cleanupFeedback (jsTrim raw)
        let fb2 := ensureEndsWithQuestion fb1 sanitizedCode
        if fb2 = "" ∨ fb2.length < 10 then
          fallbackResponse sanitizedCode "No valid feedback could be generated"
            rand
        else { feedback := fb2, isFallback := false, status := 200 }

/-- `POST` of the analyze route: rate-limit gate (HTTP 429 with the wait
notice) and then the validated body; also returns the rate-limit list
written back for the client. -/
def POST (tokenState : List Int) (now : Int) (req : AnalyzeRequest)
    (outcome : BackendOutcome) (rand : Fin 4) :
    AnalyzeResponse × List Int :=
  let rl := checkRateLimit tokenState now
  if rl.1.isRateLimited then
    ({ feedback := "Rate limit exceeded. Please wait " ++
         toString rl.1.reset ++ " seconds before trying again.",
       isFallback := true, status := 429 }, rl.2)
  else
    (POSTvalidated req.language (sanitizedCodeOf req.code) req.isChat
      outcome rand, rl.2)

/-- The `messages` array the route builds for a request. -/
def buildRequestMessages (req : AnalyzeRequest) : List ChatMsg :=
  buildMessages req.question (strOr req.language "")
    (sanitizedCodeOf req.code) req.conversation req.currentMessage req.isChat

/-- The failure classes of the backend call named by C7: a thrown error
(timeout, network, HTTP error status), a malformed response without a
message, or a message with missing or empty content and reasoning. -/
def backendFailed : BackendOutcome → Prop
  | BackendOutcome.throws _ => True
  | BackendOutcome.noMessage => True
  | BackendOutcome.message c r =>
    (c = none ∨ c = some "") ∧ (r = none ∨ r = some "")

/-! ## Theorems -/

/-- Pruning keeps the whole list when every stored timestamp is within the
window of `now`. -/
theorem pruneWindow_eq_self (s : List Int) (now : Int)
    (h : ∀ t ∈ s, now - t < WINDOW_MS) : pruneWindow s now = s :=
  List.filter_eq_self.mpr (fun a ha => by simpa using h a ha)

/-- A single admitted step: with fewer than `MAX_REQUESTS` stored timestamps,
all within the window, the check is admitted and appends `now`. -/
theorem checkRateLimit_admit (s : List Int) (now : Int)
    (hlen : s.length < MAX_REQUESTS)
    (hwin : ∀ t ∈ s, now - t < WINDOW_MS) :
    (checkRateLimit s now).1.isRateLimited = false ∧
    (checkRateLimit s now).2 = s ++ [now] := by
  have hkeep := pruneWindow_eq_self s now hwin
  constructor
  · simp only [checkRateLimit, hkeep]
    simpa using hlen
  · simp only [checkRateLimit, hkeep]

/-- Under the hypotheses of one window, a run of at most `MAX_REQUESTS`
total checks is fully admitted and the final state is the call sequence
appended to the initial state. -/
theorem runChecks_admits_all (calls : List Int) (s : List Int)
    (hlen : s.length + calls.length ≤ MAX_REQUESTS)
    (hwin : ∀ a ∈ s ++ calls, ∀ b ∈ s ++ calls, a - b < WINDOW_MS) :
    (∀ r ∈ (runChecks s calls).1, r.isRateLimited = false) ∧
    (runChecks s calls).2 = s ++ calls := by
  induction calls generalizing s with
  | nil => simp [runChecks]
  | cons now rest ih =>
    have hstep := checkRateLimit_admit s now (by simp at hlen; omega)
      (fun t ht => hwin now (by simp) t (by simp [ht]))
    have hwin' : ∀ a ∈ (s ++ [now]) ++ rest, ∀ b ∈ (s ++ [now]) ++ rest,
        a - b < WINDOW_MS := by
      intro a ha b hb
      apply hwin <;> simp at * <;> tauto
    have ih' := ih (s ++ [now]) (by simp at hlen ⊢; omega) hwin'
    refine ⟨?_, ?_⟩
    · intro r hr
      simp only [runChecks, hstep.2] at hr
      rcases List.mem_cons.mp hr with h | h
      · rw [h]; exact hstep.1
      · exact ih'.1 r h
    · simp only [runChecks, hstep.2, ih'.2, List.append_assoc,
        List.singleton_append]

/-- A `ceilDiv1000` of a positive integer is positive. -/
theorem ceilDiv1000_pos {a : Int} (h : 1 ≤ a) : 0 < ceilDiv1000 a := by
  unfold ceilDiv1000
  have h1 : (1000 : Int) ≤ a + 999 := by omega
  have h2 : (1000 : Int) / 1000 ≤ (a + 999) / 1000 :=
    Int.ediv_le_ediv (by decide) h1
  omega

/-- C1 counterexample: a denied check does **not** leave the timestamp list
unchanged.  With thirty stored timestamps at time `0`, the check at `now = 0`
is denied, yet the stored list grows to thirty-one entries — the source
pushes `now` and writes the list back before consulting `isRateLimited`. -/
theorem checkRateLimit_denied_mutates :
    (checkRateLimit (List.replicate 30 (0 : Int)) 0).1.isRateLimited = true ∧
    (checkRateLimit (List.replicate 30 (0 : Int)) 0).2 ≠
      List.replicate 30 (0 : Int) := by decide

/-- C1 amended: a denied rate-limit check appends the current timestamp just
as an admitted one does — the stored list becomes the pruned list with `now`
appended, and in particular it differs from the pruned list, so rejected
probes do consume quota. -/
theorem checkRateLimit_denied_appends (s : List Int) (now : Int)
    (hdenied : (checkRateLimit s now).1.isRateLimited = true) :
    (checkRateLimit s now).2 = pruneWindow s now ++ [now] ∧
    (checkRateLimit s now).2 ≠ pruneWindow s now := by
  refine ⟨rfl, ?_⟩
  intro h
  have hlen := congrArg List.length h
  simp [checkRateLimit] at hlen

/-- Witness for `checkRateLimit_denied_appends` at a concrete denied input. -/
theorem checkRateLimit_denied_appends_witness :
    (checkRateLimit (List.replicate 30 (0 : Int)) 0).2 =
      pruneWindow (List.replicate 30 (0 : Int)) 0 ++ [0] ∧
    (checkRateLimit (List.replicate 30 (0 : Int)) 0).2 ≠
      pruneWindow (List.replicate 30 (0 : Int)) 0 :=
  checkRateLimit_denied_appends (List.replicate 30 (0 : Int)) 0 (by decide)

/-- C3: for a client whose requests all fall within one `WINDOW_MS` window,
the first `MAX_REQUESTS` checks are all admitted, and the following check is
denied with `reset` (the `retryAfterSeconds` of the contract) equal to
`ceil((oldest_remaining_timestamp + WINDOW_MS − now) / 1000)` and positive. -/
theorem checkRateLimit_window_limit (ts30 : List Int) (t31 : Int)
    (hlen : ts30.length = MAX_REQUESTS)
    (hwin : ∀ a ∈ ts30 ++ [t31], ∀ b ∈ ts30 ++ [t31], a - b < WINDOW_MS) :
    (∀ r ∈ (runChecks [] ts30).1, r.isRateLimited = false) ∧
    (checkRateLimit (runChecks [] ts30).2 t31).1.isRateLimited = true ∧
    (checkRateLimit (runChecks [] ts30).2 t31).1.reset =
      ceilDiv1000 (ts30.headI + WINDOW_MS - t31) ∧
    0 < (checkRateLimit (runChecks [] ts30).2 t31).1.reset := by
  have hrun := runChecks_admits_all ts30 [] (by simpa using hlen.le)
    (fun a ha b hb => hwin a (by simp at ha ⊢; tauto) b (by simp at hb ⊢; tauto))
  have hstate : (runChecks [] ts30).2 = ts30 := by simpa using hrun.2
  obtain ⟨h0, tl, rfl⟩ : ∃ h0 tl, ts30 = h0 :: tl := by
    cases ts30 with
    | nil => simp [MAX_REQUESTS] at hlen
    | cons h0 tl => exact ⟨h0, tl, rfl⟩
  have hkeep : pruneWindow (h0 :: tl) t31 = h0 :: tl :=
    pruneWindow_eq_self _ _
      (fun t ht => hwin t31 (by simp) t (by simp at ht ⊢; tauto))
  have hden : (checkRateLimit (h0 :: tl) t31).1.isRateLimited = true := by
    simp only [checkRateLimit, hkeep]
    simpa using hlen.ge
  have hhead : ((h0 :: tl) ++ [t31]).headI = h0 := rfl
  have hreset : (checkRateLimit (h0 :: tl) t31).1.reset =
      ceilDiv1000 ((h0 :: tl).headI + WINDOW_MS - t31) := by
    simp only [checkRateLimit, hkeep]
    rfl
  refine ⟨hrun.1, ?_, ?_, ?_⟩
  · rw [hstate]; exact hden
  · rw [hstate]; exact hreset
  · rw [hstate, hreset]
    apply ceilDiv1000_pos
    have hmem : h0 ∈ (h0 :: tl) ++ [t31] := by simp
    have := hwin t31 (by simp) h0 hmem
    simp only [List.headI_cons]
    omega

/-- Witness for `checkRateLimit_window_limit`: thirty-one requests at the
same instant; the first thirty are admitted, the thirty-first is denied with
`reset = 60`. -/
theorem checkRateLimit_window_limit_witness :
    (∀ r ∈ (runChecks [] (List.replicate 30 (0 : Int))).1,
      r.isRateLimited = false) ∧
    (checkRateLimit (runChecks [] (List.replicate 30 (0 : Int))).2
      0).1.isRateLimited = true ∧
    (checkRateLimit (runChecks [] (List.replicate 30 (0 : Int))).2 0).1.reset =
      ceilDiv1000 ((List.replicate 30 (0 : Int)).headI + WINDOW_MS - 0) ∧
    0 < (checkRateLimit (runChecks [] (List.replicate 30 (0 : Int))).2
      0).1.reset :=
  checkRateLimit_window_limit (List.replicate 30 (0 : Int)) 0 (by decide)
    (by decide)

/-- In a list sorted by descending priority, the first rule `find?` accepts
has the highest priority among all accepted rules. -/
theorem find?_desc_max {p : AnalysisRule → Bool} {r : AnalysisRule}
    {l : List AnalysisRule}
    (hsort : l.Pairwise (fun a b => b.priority ≤ a.priority))
    (hfind : l.find? p = some r) :
    ∀ r' ∈ l, p r' = true → r'.priority ≤ r.priority := by
  induction l with
  | nil => simp at hfind
  | cons x xs ih =>
    rcases List.pairwise_cons.mp hsort with ⟨hx, hxs⟩
    by_cases hp : p x
    · rw [List.find?_cons_of_pos _ hp] at hfind
      cases hfind
      intro r' hr' hpr'
      rcases List.mem_cons.mp hr' with rfl | h
      · exact le_refl _
      · exact hx r' h
    · rw [List.find?_cons_of_neg _ (by simpa using hp)] at hfind
      intro r' hr' hpr'
      rcases List.mem_cons.mp hr' with rfl | h
      · exact absurd hpr' (by simpa using hp)
      · exact ih hxs hfind r' h hpr'

/-- Every string `analyze` can possibly return is non-empty: the keep-going
message, every rule's feedback, and every default response. -/
theorem analyze_some_ne_empty (code : String) (rand : Fin 4) :
    ∃ s, analyze code rand = some s ∧ s ≠ "" := by
  unfold analyze
  split
  · exact ⟨KEEP_GOING_MSG, rfl, by decide⟩
  · rcases hfind : sortedRules.find? (fun rule => patternTest rule.pattern code)
      with _ | rule
    · rw [hfind]
      refine ⟨_, rfl, ?_⟩
      have h4 : ∀ i : Fin defaultResponses.length,
          defaultResponses.get i ≠ "" := by decide
      exact h4 _
    · rw [hfind]
      refine ⟨rule.feedback, rfl, ?_⟩
      have hmem := List.mem_of_find?_eq_some hfind
      have hall : ∀ rl ∈ sortedRules, rl.feedback ≠ "" := by decide
      exact hall rule hmem

/-- C6: when the code is long enough and some rule matches, `analyze`
returns the feedback of the first match in the descending-priority order,
which has the highest priority among all matching rules; in particular the
loop example yields the loop-specific feedback. -/
theorem analyze_first_match (code : String) (rand : Fin 4) (r : AnalysisRule)
    (hne : code ≠ "")
    (hlen : 10 ≤ (jsTrim code).length)
    (hfind : sortedRules.find? (fun rule => patternTest rule.pattern code) =
      some r) :
    analyze code rand = some r.feedback ∧
    (∀ r' ∈ sortedRules, patternTest r'.pattern code = true →
      r'.priority ≤ r.priority) ∧
    analyze "for (let i=0;i<n;i++) \x7b\x7d" rand =
      some "I see you're using a loop. Have you considered the termination condition?" := by
  refine ⟨?_, find?_desc_max (by decide) hfind, ?_⟩
  · unfold analyze
    rw [if_neg (by push_neg; exact ⟨hne, by omega⟩), hfind]
  · unfold analyze
    rw [if_neg (by decide),
      show sortedRules.find?
          (fun rule => patternTest rule.pattern "for (let i=0;i<n;i++) \x7b\x7d") =
        some { pattern := litToks "for" ++ [RTok.wsStar, RTok.lit '('],
               feedback := "I see you're using a loop. Have you considered the termination condition?",
               priority := 1 } from by decide]

/-- Witness for `analyze_first_match` at the loop example itself. -/
theorem analyze_first_match_witness :
    analyze "for (let i=0;i<n;i++) \x7b\x7d" 0 =
      some "I see you're using a loop. Have you considered the termination condition?" ∧
    (∀ r' ∈ sortedRules,
      patternTest r'.pattern "for (let i=0;i<n;i++) \x7b\x7d" = true →
      r'.priority ≤
        ({ pattern := litToks "for" ++ [RTok.wsStar, RTok.lit '('],
           feedback := "I see you're using a loop. Have you considered the termination condition?",
           priority := 1 } : AnalysisRule).priority) ∧
    analyze "for (let i=0;i<n;i++) \x7b\x7d" 0 =
      some "I see you're using a loop. Have you considered the termination condition?" :=
  analyze_first_match "for (let i=0;i<n;i++) \x7b\x7d" 0
    { pattern := litToks "for" ++ [RTok.wsStar, RTok.lit '('],
      feedback := "I see you're using a loop. Have you considered the termination condition?",
      priority := 1 }
    (by decide) (by decide) (by decide)

/-- C9: empty or too-short code short-circuits to the fixed keep-going
message before any rule evaluation, and on every input whatsoever `analyze`
returns a non-null, non-empty string despite its `string | null` type. -/
theorem analyze_short_circuit_total (code : String) (rand : Fin 4) :
    (code = "" ∨ (jsTrim code).length < 10 →
      analyze code rand = some KEEP_GOING_MSG) ∧
    ∃ s, analyze code rand = some s ∧ s ≠ "" := by
  refine ⟨?_, analyze_some_ne_empty code rand⟩
  intro h
  unfold analyze
  rw [if_pos h]

/-- Witness for `analyze_short_circuit_total` at the empty string. -/
theorem analyze_short_circuit_total_witness :
    analyze "" 0 = some KEEP_GOING_MSG ∧
    ∃ s, analyze "" 0 = some s ∧ s ≠ "" :=
  ⟨(analyze_short_circuit_total "" 0).1 (Or.inl rfl),
   (analyze_short_circuit_total "" 0).2⟩

/-- The pristine scheduler state is well-formed. -/
theorem initScheduler_wf : SchedWF initScheduler := by
  refine ⟨?_, ?_, ?_⟩ <;> intros <;> simp_all [initScheduler]

/-- After a cancel, the session has no pending entry. -/
theorem cancel_pending_self (st : SchedulerState) (sid : String) :
    (cancelPendingAnalysis st sid).pendingAnalyses sid = none := by
  unfold cancelPendingAnalysis
  rcases h : st.pendingAnalyses sid with _ | ⟨tid, ts⟩ <;> simp [h]

/-- Cancel does not change `nextId`. -/
theorem cancel_nextId (st : SchedulerState) (sid : String) :
    (cancelPendingAnalysis st sid).nextId = st.nextId := by
  unfold cancelPendingAnalysis
  rcases h : st.pendingAnalyses sid with _ | ⟨tid, ts⟩ <;> simp

/-- Cancel preserves well-formedness. -/
theorem cancel_wf {st : SchedulerState} (h : SchedWF st) (sid : String) :
    SchedWF (cancelPendingAnalysis st sid) := by
  obtain ⟨h1, h2, h3⟩ := h
  unfold cancelPendingAnalysis
  rcases hp : st.pendingAnalyses sid with _ | ⟨tid, ts⟩
  · exact ⟨h1, h2, h3⟩
  refine ⟨?_, ?_, ?_⟩
  · intro t s c ht
    simp only at ht
    by_cases hteq : t = tid
    · simp [hteq] at ht
    · simp only [if_neg hteq] at ht
      obtain ⟨ts', hts'⟩ := h1 t s c ht
      refine ⟨ts', ?_⟩
      have hs : s ≠ sid := by
        intro hseq
        rw [hseq, hp] at hts'
        exact hteq (by injection hts' with h'; exact (Prod.mk.injEq _ _ _ _ ▸ h').1.symm ▸ rfl)
      simp [hs, hts']
  · intro s t ts' hpend
    simp only at hpend
    by_cases hseq : s = sid
    · simp [hseq] at hpend
    · simp only [if_neg hseq] at hpend
      obtain ⟨c, hc⟩ := h2 s t ts' hpend
      refine ⟨c, ?_⟩
      have ht : t ≠ tid := by
        intro hteq
        obtain ⟨c0, hc0⟩ := h2 sid tid ts hp
        rw [hteq, hc0] at hc
        exact hseq (by injection hc with h'; exact (Prod.mk.injEq _ _ _ _ ▸ h').1.symm ▸ rfl)
      simp [ht, hc]
  · intro t hge
    simp only
    by_cases hteq : t = tid <;> simp [hteq, h3 t hge]

/-- Schedule arms the fresh timer for the session and records it. -/
theorem schedule_effect (st : SchedulerState) (sid code : String) (now : Nat) :
    (scheduleAnalysis st sid code now).pendingAnalyses sid =
      some (st.nextId, now) ∧
    (scheduleAnalysis st sid code now).timers st.nextId = some (sid, code) ∧
    (scheduleAnalysis st sid code now).nextId = st.nextId + 1 := by
  refine ⟨?_, ?_, ?_⟩ <;> simp [scheduleAnalysis, cancel_nextId]

/-- Schedule preserves well-formedness. -/
theorem schedule_wf {st : SchedulerState} (h : SchedWF st) (sid code : String)
    (now : Nat) : SchedWF (scheduleAnalysis st sid code now) := by
  have hwf1 := cancel_wf h sid
  obtain ⟨h1, h2, h3⟩ := hwf1
  have hnone := cancel_pending_self st sid
  set st1 := cancelPendingAnalysis st sid with hst1
  refine ⟨?_, ?_, ?_⟩
  · intro t s c ht
    simp only [scheduleAnalysis, ← hst1] at ht ⊢
    by_cases hteq : t = st1.nextId
    · simp only [if_pos hteq] at ht
      injection ht with h'
      obtain ⟨hs, hc⟩ := Prod.mk.injEq _ _ _ _ ▸ h'
      exact ⟨now, by simp [← hs, hteq]⟩
    · simp only [if_neg hteq] at ht
      obtain ⟨ts, hts⟩ := h1 t s c ht
      have hs : s ≠ sid := fun hseq => by rw [hseq, hnone] at hts; cases hts
      exact ⟨ts, by simp [hs, hts]⟩
  · intro s t ts hpend
    simp only [scheduleAnalysis, ← hst1] at hpend ⊢
    by_cases hseq : s = sid
    · simp only [if_pos hseq] at hpend
      injection hpend with h'
      obtain ⟨ht, _⟩ := Prod.mk.injEq _ _ _ _ ▸ h'
      exact ⟨code, by simp [← ht, hseq]⟩
    · simp only [if_neg hseq] at hpend
      obtain ⟨c, hc⟩ := h2 s t ts hpend
      have ht : t ≠ st1.nextId := fun hteq => by
        rw [hteq] at hc; rw [h3 st1.nextId (le_refl _)] at hc; cases hc
      exact ⟨c, by simp [ht, hc]⟩
  · intro t hge
    simp only [scheduleAnalysis, ← hst1] at hge ⊢
    have ht : t ≠ st1.nextId := by omega
    simp [ht, h3 t (by omega)]

/-- In a well-formed state there is at most one armed timer per session. -/
theorem wf_atMostOne {st : SchedulerState} (h : SchedWF st) (sid : String) :
    ∀ t1 t2 c1 c2, st.timers t1 = some (sid, c1) →
      st.timers t2 = some (sid, c2) → t1 = t2 := by
  intro t1 t2 c1 c2 h1 h2
  obtain ⟨ts1, hp1⟩ := h.1 t1 sid c1 h1
  obtain ⟨ts2, hp2⟩ := h.1 t2 sid c2 h2
  rw [hp1] at hp2
  simp only [Option.some.injEq, Prod.mk.injEq] at hp2
  exact hp2.1

/-- A burst of schedules preserves well-formedness. -/
theorem scheduleMany_wf {st : SchedulerState} (h : SchedWF st) (sid : String)
    (items : List (String × Nat)) : SchedWF (scheduleMany st sid items) := by
  induction items generalizing st with
  | nil => exact h
  | cons x rest ih => exact ih (schedule_wf h sid x.1 x.2)

/-- After a non-empty burst, the session's recorded timer is armed and holds
the payload of the last call of the burst. -/
theorem scheduleMany_last {st : SchedulerState} (h : SchedWF st) (sid : String)
    (items : List (String × Nat)) (hne : items ≠ []) :
    ∃ tid, (scheduleMany st sid items).pendingAnalyses sid =
        some (tid, (items.getLast hne).2) ∧
      (scheduleMany st sid items).timers tid =
        some (sid, (items.getLast hne).1) := by
  induction items generalizing st with
  | nil => exact absurd rfl hne
  | cons x rest ih =>
    cases rest with
    | nil =>
      have he := schedule_effect st sid x.1 x.2
      exact ⟨st.nextId, by simpa [scheduleMany] using ⟨he.1, he.2.1⟩⟩
    | cons y rest' =>
      have hstep : scheduleMany st sid (x :: y :: rest') =
          scheduleMany (scheduleAnalysis st sid x.1 x.2) sid (y :: rest') := by
        simp [scheduleMany]
      rw [hstep, show (x :: y :: rest').getLast hne = (y :: rest').getLast (by simp)
        from List.getLast_cons _]
      exact ih (schedule_wf h sid x.1 x.2) (by simp)

/-- Firing an armed timer produces exactly its recorded invocation. -/
theorem fireTimer_armed {st : SchedulerState} {tid : Nat} {sid code : String}
    (h : st.timers tid = some (sid, code)) :
    (fireTimer st tid).2 = some (sid, code) ∧
    (fireTimer st tid).1.timers tid = none := by
  unfold fireTimer
  rw [h]
  exact ⟨rfl, by simp⟩

/-- Firing a timer that is not armed does nothing. -/
theorem fireTimer_unarmed {st : SchedulerState} {tid : Nat}
    (h : st.timers tid = none) : (fireTimer st tid).2 = none := by
  unfold fireTimer
  rw [h]

/-- A fired invocation comes from an armed timer. -/
theorem fireTimer_inv {st : SchedulerState} {tid : Nat} {sid code : String}
    (h : (fireTimer st tid).2 = some (sid, code)) :
    st.timers tid = some (sid, code) := by
  unfold fireTimer at h
  rcases ht : st.timers tid with _ | ⟨s, c⟩ <;> rw [ht] at h
  · cases h
  · simpa using h

/-- C5: a burst of `scheduleAnalysis` calls for one session with no
intervening fire or cancel leaves exactly one armed timer for the session,
holding the payload of the last call; firing it yields exactly one callback
invocation with that payload, a second fire of the same id yields nothing,
no other timer id can produce an invocation for the session (so replaced or
cancelled timers never fire), and at every point of the burst the session
has at most one armed timer. -/
theorem scheduleAnalysis_debounce (st0 : SchedulerState) (hwf : SchedWF st0)
    (sid : String) (items : List (String × Nat)) (hne : items ≠ []) :
    ∃ tid,
      (scheduleMany st0 sid items).pendingAnalyses sid =
        some (tid, (items.getLast hne).2) ∧
      (scheduleMany st0 sid items).timers tid =
        some (sid, (items.getLast hne).1) ∧
      (fireTimer (scheduleMany st0 sid items) tid).2 =
        some (sid, (items.getLast hne).1) ∧
      (fireTimer (fireTimer (scheduleMany st0 sid items) tid).1 tid).2 =
        none ∧
      (∀ tid' c, (fireTimer (scheduleMany st0 sid items) tid').2 =
        some (sid, c) → tid' = tid ∧ c = (items.getLast hne).1) ∧
      (∀ n t1 t2 c1 c2,
        (scheduleMany st0 sid (items.take n)).timers t1 = some (sid, c1) →
        (scheduleMany st0 sid (items.take n)).timers t2 = some (sid, c2) →
        t1 = t2) := by
  obtain ⟨tid, hpend, htim⟩ := scheduleMany_last hwf sid items hne
  have hwf' := scheduleMany_wf hwf sid items
  obtain ⟨hfire, hclear⟩ := fireTimer_armed htim
  refine ⟨tid, hpend, htim, hfire, fireTimer_unarmed hclear, ?_, ?_⟩
  · intro tid' c hinv
    have harm := fireTimer_inv hinv
    have := wf_atMostOne hwf' sid tid' tid c (items.getLast hne).1 harm htim
    subst this
    rw [harm] at htim
    simp only [Option.some.injEq, Prod.mk.injEq] at htim
    exact ⟨rfl, htim.2⟩
  · intro n
    exact wf_atMostOne (scheduleMany_wf hwf sid (items.take n)) sid

/-- Witness for `scheduleAnalysis_debounce`: two rapid schedules for session
`s`; one timer remains, holding the second payload. -/
theorem scheduleAnalysis_debounce_witness :
    ∃ tid,
      (scheduleMany initScheduler "s" [("a", 0), ("b", 1)]).pendingAnalyses
        "s" = some (tid, 1) ∧
      (scheduleMany initScheduler "s" [("a", 0), ("b", 1)]).timers tid =
        some ("s", "b") ∧
      (fireTimer (scheduleMany initScheduler "s" [("a", 0), ("b", 1)])
        tid).2 = some ("s", "b") ∧
      (fireTimer (fireTimer (scheduleMany initScheduler "s"
        [("a", 0), ("b", 1)]) tid).1 tid).2 = none ∧
      (∀ tid' c, (fireTimer (scheduleMany initScheduler "s"
        [("a", 0), ("b", 1)]) tid').2 = some ("s", c) →
        tid' = tid ∧ c = "b") ∧
      (∀ n t1 t2 c1 c2,
        (scheduleMany initScheduler "s"
          ([("a", 0), ("b", 1)].take n)).timers t1 = some ("s", c1) →
        (scheduleMany initScheduler "s"
          ([("a", 0), ("b", 1)].take n)).timers t2 = some ("s", c2) →
        t1 = t2) :=
  scheduleAnalysis_debounce initScheduler initScheduler_wf "s"
    [("a", 0), ("b", 1)] (by simp)

/-- Helper for C2: with no fetch failures, the queue body drains the whole
queue, resets the flag, and every reported error is a queued text. -/
theorem processQueueAux_drains (q : List String)
    (oracle : Nat → PlayAttemptResult) (k : Nat)
    (hno : ∀ j, oracle j ≠ PlayAttemptResult.fetchError) :
    (processQueueAux q oracle k).1 = ⟨[], false⟩ ∧
    ∀ e ∈ (processQueueAux q oracle k).2, e ∈ q := by
  induction q generalizing k with
  | nil => simp [processQueueAux]
  | cons t rest ih =>
    by_cases ht : jsTrim t = ""
    · have := ih k
      simp only [processQueueAux, if_pos ht]
      exact ⟨(this.1), fun e he => List.mem_cons_of_mem t ((this.2) e he)⟩
    · rcases ho : oracle k with _ | _ | _
      · exact absurd ho (hno k)
      · have := ih (k + 1)
        simp only [processQueueAux, if_neg ht, ho]
        refine ⟨this.1, fun e he => ?_⟩
        rcases List.mem_cons.mp he with rfl | h
        · exact List.mem_cons_self _ _
        · exact List.mem_cons_of_mem t (this.2 e h)
      · have := ih (k + 1)
        simp only [processQueueAux, if_neg ht, ho]
        exact ⟨this.1, fun e he => List.mem_cons_of_mem t (this.2 e he)⟩

/-- C2 counterexample: a fetch failure (fetch threw or bad HTTP status) does
**not** remove the failed item or clear the playing flag — the inner catch
returns early — and the queue is then stalled: a later `processQueue` call,
even with a succeeding oracle, does nothing because `isPlaying` is stuck. -/
theorem processQueue_fetch_stall :
    (processQueue ⟨["hello world"], false⟩
      (fun _ => PlayAttemptResult.fetchError) 0).1 =
      ⟨["hello world"], true⟩ ∧
    (processQueue ⟨["hello world"], true⟩
      (fun _ => PlayAttemptResult.success) 0).1 =
      ⟨["hello world"], true⟩ ∧
    (processQueue ⟨["hello world"], false⟩
      (fun _ => PlayAttemptResult.fetchError) 0).2 = ["hello world"] := by
  refine ⟨?_, ?_, ?_⟩ <;> rfl

/-- C2 amended: for audio-data failures (empty or undecodable audio) the
failed item is removed, the flag is cleared, the next item is attempted and
the failure is reported through the error callback — as long as no fetch
failure occurs, the queue fully drains and never stalls, and every reported
failure names a queued item.  A fetch failure or bad HTTP status instead
leaves the item queued and the flag set (see the counterexample). -/
theorem processQueue_advances (q : List String)
    (oracle : Nat → PlayAttemptResult) (k : Nat)
    (hno : ∀ j, oracle j ≠ PlayAttemptResult.fetchError) :
    (processQueue ⟨q, false⟩ oracle k).1 = ⟨[], false⟩ ∧
    (∀ e ∈ (processQueue ⟨q, false⟩ oracle k).2, e ∈ q) ∧
    (∀ t rest, jsTrim t ≠ "" → oracle k = PlayAttemptResult.audioError →
      processQueue ⟨t :: rest, false⟩ oracle k =
        ((processQueue ⟨rest, false⟩ oracle (k + 1)).1,
         t :: (processQueue ⟨rest, false⟩ oracle (k + 1)).2)) := by
  have hd := processQueueAux_drains q oracle k hno
  refine ⟨hd.1, hd.2, ?_⟩
  intro t rest ht ho
  simp [processQueue, processQueueAux, if_neg ht, ho]

/-- Witness for `processQueue_advances`: two items, both failing with audio
errors; the queue drains, the flag clears, both failures are reported. -/
theorem processQueue_advances_witness :
    (processQueue ⟨["first feedback", "second feedback"], false⟩
      (fun _ => PlayAttemptResult.audioError) 0).1 = ⟨[], false⟩ ∧
    (∀ e ∈ (processQueue ⟨["first feedback", "second feedback"], false⟩
      (fun _ => PlayAttemptResult.audioError) 0).2,
      e ∈ ["first feedback", "second feedback"]) ∧
    (∀ t rest, jsTrim t ≠ "" →
      (fun _ => PlayAttemptResult.audioError) 0 =
        PlayAttemptResult.audioError →
      processQueue ⟨t :: rest, false⟩
          (fun _ => PlayAttemptResult.audioError) 0 =
        ((processQueue ⟨rest, false⟩
            (fun _ => PlayAttemptResult.audioError) 1).1,
         t :: (processQueue ⟨rest, false⟩
            (fun _ => PlayAttemptResult.audioError) 1).2)) :=
  processQueue_advances ["first feedback", "second feedback"]
    (fun _ => PlayAttemptResult.audioError) 0
    (fun _ h => PlayAttemptResult.noConfusion h)

/-- The synchronous kick never lengthens the queue. -/
theorem processQueueSyncAux_len (q : List String) :
    (processQueueSyncAux q).audioQueue.length ≤ q.length := by
  induction q with
  | nil => simp [processQueueSyncAux]
  | cons x xs ih =>
    by_cases hx : jsTrim x = ""
    · simp only [processQueueSyncAux, if_pos hx]
      calc (processQueueSyncAux xs).audioQueue.length ≤ xs.length := ih
        _ ≤ (x :: xs).length := by simp
    · simp [processQueueSyncAux, hx]

/-- The synchronous kick drops only empty-text items, so it preserves the
multiplicity of any text whose trim is non-empty. -/
theorem processQueueSyncAux_count (q : List String) (t : String)
    (h : jsTrim t ≠ "") :
    (processQueueSyncAux q).audioQueue.count t = q.count t := by
  induction q with
  | nil => simp [processQueueSyncAux]
  | cons x xs ih =>
    by_cases hx : jsTrim x = ""
    · have hxt : x ≠ t := fun he => h (he ▸ hx)
      simp only [processQueueSyncAux, if_pos hx, ih]
      rw [List.count_cons]
      simp [hxt]
    · simp [processQueueSyncAux, hx]

/-- If the synchronous kick kept the queue length, it kept the queue. -/
theorem processQueueSyncAux_len_eq (q : List String)
    (h : (processQueueSyncAux q).audioQueue.length = q.length) :
    (processQueueSyncAux q).audioQueue = q := by
  cases q with
  | nil => simp [processQueueSyncAux]
  | cons x xs =>
    by_cases hx : jsTrim x = ""
    · exfalso
      have hle := processQueueSyncAux_len xs
      simp only [processQueueSyncAux, if_pos hx] at h
      simp at h
      omega
    · simp [processQueueSyncAux, hx]

/-- The head of a `dropWhile` result fails the predicate. -/
theorem dropWhile_head_false {p : Char → Bool} {l : List Char} {x : Char}
    {xs : List Char} (h : l.dropWhile p = x :: xs) : p x = false := by
  have := List.head?_dropWhile_not p l
  rw [h] at this
  simpa using this

/-- If every character of a trimmed list is white space, the trim was
empty: the trim is the reverse of a `dropWhile` result, whose head (if any)
is not white space. -/
theorem trimChars_all_ws {l : List Char}
    (h : ∀ x ∈ trimChars l, isJsWs x = true) : trimChars l = [] := by
  unfold trimChars at h ⊢
  rcases hd : ((l.dropWhile isJsWs).reverse.dropWhile isJsWs) with _ | ⟨d, ds⟩
  · simp [hd]
  · exfalso
    have hdws : isJsWs d = false := dropWhile_head_false hd
    have : isJsWs d = true := h d (by simp [hd])
    simp [hdws] at this

/-- Trimming an already-trimmed non-empty string cannot make it empty: a
non-empty trim starts with a non-white-space character. -/
theorem jsTrim_jsTrim_ne {s : String} (h : jsTrim s ≠ "") :
    jsTrim (jsTrim s) ≠ "" := by
  intro hc
  apply h
  have hdata : trimChars (trimChars s.data) = [] := by
    have := congrArg String.data hc
    simpa [jsTrim] using this
  have hinner : ((trimChars s.data).dropWhile isJsWs).reverse.dropWhile isJsWs
      = [] := by
    have h1 : (((trimChars s.data).dropWhile
        isJsWs).reverse.dropWhile isJsWs).reverse = [] := hdata
    simpa using h1
  have hall2 := List.dropWhile_eq_nil_iff.mp hinner
  have hnil : (trimChars s.data).dropWhile isJsWs = [] := by
    rcases hd : (trimChars s.data).dropWhile isJsWs with _ | ⟨d, ds⟩
    · rfl
    · exfalso
      have hdf : isJsWs d = false := dropWhile_head_false hd
      have hdt : isJsWs d = true := hall2 d (by simp [hd])
      simp [hdf] at hdt
  have hz : trimChars s.data = [] :=
    trimChars_all_ws (List.dropWhile_eq_nil_iff.mp hnil)
  show String.mk (trimChars s.data) = ""
  rw [hz]

/-- Unfolding of `speak` on the push path while playback is in progress:
the item is appended and the over-capacity check drops the head. -/
theorem speak_push_playing (q : List String) (text : String)
    (hne : jsTrim text ≠ "") (hnotin : q.contains (jsTrim text) = false) :
    speak ⟨q, true⟩ text true =
      if 5 < (q ++ [jsTrim text]).length then
        (⟨(q ++ [jsTrim text]).tail, true⟩ : AudioQueueState)
      else ⟨q ++ [jsTrim text], true⟩ := by
  have hnotmem : jsTrim text ∉ q := by simpa using hnotin
  simp [speak, hne, hnotmem]

/-- Unfolding of `speak` on the push path while idle: the item is appended,
the synchronous part of `processQueue` runs, and the over-capacity check
drops the head of its result. -/
theorem speak_push_idle (q : List String) (text : String)
    (hne : jsTrim text ≠ "") (hnotin : q.contains (jsTrim text) = false) :
    speak ⟨q, false⟩ text true =
      if 5 < (processQueueSyncAux (q ++ [jsTrim text])).audioQueue.length then
        (⟨(processQueueSyncAux (q ++ [jsTrim text])).audioQueue.tail,
          (processQueueSyncAux (q ++ [jsTrim text])).isPlaying⟩ :
          AudioQueueState)
      else processQueueSyncAux (q ++ [jsTrim text]) := by
  have hnotmem : jsTrim text ∉ q := by simpa using hnotin
  simp [speak, hne, hnotmem, processQueueSyncStep]

/-- A `speak` whose trimmed text is already queued is a no-op. -/
theorem speak_queued (st : AudioQueueState) (text : String)
    (hin : jsTrim text ∈ st.audioQueue) : speak st text true = st := by
  by_cases h : jsTrim text = "" <;> simp [speak, h, hin]

/-- Dropping the head of `q ++ [t]` leaves exactly one copy of `t` when `t`
does not occur in `q` and `q` is non-empty. -/
theorem count_tail_append_one (q : List String) (t : String)
    (hmem : t ∉ q) (hq : q ≠ []) :
    ((q ++ [t]).tail).count t = 1 := by
  cases q with
  | nil => exact absurd rfl hq
  | cons x xs =>
    have hxs : t ∉ xs := fun hin => hmem (List.mem_cons_of_mem x hin)
    simp only [List.cons_append, List.tail_cons]
    rw [List.count_append, List.count_eq_zero.mpr hxs, List.count_singleton]
    simp

/-- C4 counterexample: with playback in progress (`isPlaying = true`, the
item being rendered is the queue head — `processQueue` reads `audioQueue[0]`
and only shifts it on completion), enqueuing a sixth item evicts the head
`"a"`, i.e. the **currently playing** item, not the oldest pending item
`"b"` as the claim requires. -/
theorem speak_evicts_playing_head :
    speak ⟨["a", "b", "c", "d", "e"], true⟩ "f" true =
      ⟨["b", "c", "d", "e", "f"], true⟩ ∧
    "a" ∉ (speak ⟨["a", "b", "c", "d", "e"], true⟩ "f" true).audioQueue := by
  exact ⟨rfl, by decide⟩

/-- C4 amended: after every enqueue the queue length never exceeds the
capacity of five, and enqueuing beyond capacity evicts the item at the
**head** of the queue — during playback that head is the currently playing
item, so the playing item is evicted, not the oldest pending one. -/
theorem speak_capacity (st : AudioQueueState) (text : String) (key : Bool)
    (hlen : st.audioQueue.length ≤ 5) :
    (speak st text key).audioQueue.length ≤ 5 ∧
    (st.isPlaying = true → st.audioQueue.length = 5 → jsTrim text ≠ "" →
      st.audioQueue.contains (jsTrim text) = false → key = true →
      speak st text key = ⟨st.audioQueue.tail ++ [jsTrim text], true⟩) := by
  obtain ⟨q, p⟩ := st
  simp only at hlen
  constructor
  · by_cases h1 : jsTrim text = ""
    · simpa [speak, h1] using hlen
    cases key with
    | false => simpa [speak, h1] using hlen
    | true =>
      by_cases h3 : jsTrim text ∈ q
      · simpa [speak, h1, h3] using hlen
      have hnotin : q.contains (jsTrim text) = false := by simpa using h3
      cases p with
      | true =>
        rw [speak_push_playing q text h1 hnotin]
        split
        · next h =>
          dsimp only
          rw [List.length_tail]
          simp only [List.length_append, List.length_singleton] at h ⊢
          omega
        · next h =>
          dsimp only
          simp only [List.length_append, List.length_singleton] at h ⊢
          omega
      | false =>
        rw [speak_push_idle q text h1 hnotin]
        have hA := processQueueSyncAux_len (q ++ [jsTrim text])
        simp only [List.length_append, List.length_singleton] at hA
        split
        · next h =>
          dsimp only
          rw [List.length_tail]
          omega
        · next h => omega
  · intro hp h5 ht hc hk
    subst hk
    simp only at hp h5 hc
    subst hp
    rw [speak_push_playing q text ht hc]
    obtain ⟨x, xs, rfl⟩ : ∃ x xs, q = x :: xs := by
      cases q with
      | nil => simp at h5
      | cons x xs => exact ⟨x, xs, rfl⟩
    have hxs : xs.length = 4 := by simpa using h5
    rw [if_pos (by simp [hxs])]
    simp

/-- Witness for `speak_capacity`: a full queue mid-playback; the enqueue
keeps the length at five and evicts the head. -/
theorem speak_capacity_witness :
    (speak ⟨["a", "b", "c", "d", "e"], true⟩ "f" true).audioQueue.length ≤ 5 ∧
    speak ⟨["a", "b", "c", "d", "e"], true⟩ "f" true =
      ⟨["a", "b", "c", "d", "e"].tail ++ [jsTrim "f"], true⟩ :=
  ⟨(speak_capacity ⟨["a", "b", "c", "d", "e"], true⟩ "f" true (by decide)).1,
   (speak_capacity ⟨["a", "b", "c", "d", "e"], true⟩ "f" true (by decide)).2
     rfl (by decide) (by decide) (by decide) rfl⟩

/-- C8: enqueuing a text not yet queued leaves exactly one queued item with
that text, and a second `speak` with the identical text is a no-op. -/
theorem speak_dedup (st : AudioQueueState) (text : String)
    (hne : jsTrim text ≠ "")
    (hnotin : st.audioQueue.contains (jsTrim text) = false)
    (hlen : st.audioQueue.length ≤ 5) :
    (speak st text true).audioQueue.count (jsTrim text) = 1 ∧
    speak (speak st text true) text true = speak st text true := by
  obtain ⟨q, p⟩ := st
  simp only at hnotin hlen
  have hmem : jsTrim text ∉ q := by simpa using hnotin
  have hq0 : q.count (jsTrim text) = 0 := List.count_eq_zero.mpr hmem
  have hcount1 : (q ++ [jsTrim text]).count (jsTrim text) = 1 := by
    rw [List.count_append, hq0, List.count_singleton]
    simp
  have hmain : (speak ⟨q, p⟩ text true).audioQueue.count (jsTrim text) = 1 := by
    cases p with
    | true =>
      rw [speak_push_playing q text hne hnotin]
      split
      · next hgt =>
        dsimp only
        apply count_tail_append_one q _ hmem
        intro hq
        subst hq
        simp at hgt
      · exact hcount1
    | false =>
      rw [speak_push_idle q text hne hnotin]
      have hsynccount :
          (processQueueSyncAux (q ++ [jsTrim text])).audioQueue.count
            (jsTrim text) = 1 := by
        rw [processQueueSyncAux_count (q ++ [jsTrim text]) (jsTrim text)
          (jsTrim_jsTrim_ne hne)]
        exact hcount1
      split
      · next hgt =>
        dsimp only
        have hle := processQueueSyncAux_len (q ++ [jsTrim text])
        have hlen6 :
            (processQueueSyncAux (q ++ [jsTrim text])).audioQueue.length =
            (q ++ [jsTrim text]).length := by
          simp only [List.length_append, List.length_singleton] at hle hgt ⊢
          omega
        rw [processQueueSyncAux_len_eq _ hlen6] at hgt ⊢
        apply count_tail_append_one q _ hmem
        intro hq
        subst hq
        simp at hgt
      · exact hsynccount
  refine ⟨hmain, ?_⟩
  apply speak_queued
  rw [← List.count_pos_iff]
  omega

/-- Witness for `speak_dedup`: enqueuing `"hi there"` into a queue that does
not hold it yields one copy, and repeating the call changes nothing. -/
theorem speak_dedup_witness :
    (speak ⟨["x"], false⟩ "hi there" true).audioQueue.count
      (jsTrim "hi there") = 1 ∧
    speak (speak ⟨["x"], false⟩ "hi there" true) "hi there" true =
      speak ⟨["x"], false⟩ "hi there" true :=
  speak_dedup ⟨["x"], false⟩ "hi there" (by decide) (by decide) (by decide)

/-- The fallback path always produces a non-empty feedback tagged as a
fallback: `FallbackAnalyzer.analyze` never returns a falsy value, and even
the guard template is non-empty. -/
theorem fallbackResponse_spec (sanitizedCode errorMsg : String)
    (rand : Fin 4) :
    (fallbackResponse sanitizedCode errorMsg rand).feedback ≠ "" ∧
    (fallbackResponse sanitizedCode errorMsg rand).isFallback = true := by
  obtain ⟨s, hs, hne⟩ := analyze_some_ne_empty sanitizedCode rand
  unfold fallbackResponse
  rw [hs]
  refine ⟨?_, rfl⟩
  dsimp only
  rw [if_neg hne]
  exact hne

/-- C7: a request that passes admission and input validation still receives
a non-empty `feedback` with `isFallback = true` whenever the backend call
fails in any of the claimed ways: a thrown error (timeout, network, HTTP
error status), a response without a message, or a message whose `content`
and `reasoning` are both missing or empty. -/
theorem POST_backend_failure (tokenState : List Int) (now : Int)
    (req : AnalyzeRequest) (outcome : BackendOutcome) (rand : Fin 4)
    (hallow : (checkRateLimit tokenState now).1.isRateLimited = false)
    (hlang : languageValid req.language = true)
    (hcode : req.isChat = true ∨ (sanitizedCodeOf req.code ≠ "" ∧
      10 ≤ (jsTrim (sanitizedCodeOf req.code)).length))
    (hfail : backendFailed outcome) :
    (POST tokenState now req outcome rand).1.feedback ≠ "" ∧
    (POST tokenState now req outcome rand).1.isFallback = true := by
  unfold POST
  rw [if_neg (by simp [hallow])]
  dsimp only
  unfold POSTvalidated
  rw [if_neg (by simp [hlang])]
  rw [if_neg (by
    rcases hcode with h | ⟨h1, h2⟩
    · simp [h]
    · push_neg
      intro hchat
      exact ⟨h1, by omega⟩)]
  rcases outcome with msg | _ | ⟨c, r⟩
  · exact fallbackResponse_spec _ _ _
  · exact fallbackResponse_spec _ _ _
  · have hpick : pickField c r = none := by
      obtain ⟨hc, hr⟩ := hfail
      rcases hc with rfl | rfl <;> rcases hr with rfl | rfl <;> simp [pickField]
    dsimp only
    rw [hpick]
    exact fallbackResponse_spec _ _ _

/-- Witness for `POST_backend_failure`: a valid request whose backend call
times out; the response carries a non-empty fallback feedback. -/
theorem POST_backend_failure_witness :
    (POST [] 0
      { question := none, code := some "function add(a, b) return a + b",
        language := some "javascript", conversation := none,
        currentMessage := none, isChat := false }
      (BackendOutcome.throws "Request timed out after 30 seconds")
      0).1.feedback ≠ "" ∧
    (POST [] 0
      { question := none, code := some "function add(a, b) return a + b",
        language := some "javascript", conversation := none,
        currentMessage := none, isChat := false }
      (BackendOutcome.throws "Request timed out after 30 seconds")
      0).1.isFallback = true :=
  POST_backend_failure [] 0
    { question := none, code := some "function add(a, b) return a + b",
      language := some "javascript", conversation := none,
      currentMessage := none, isChat := false }
    (BackendOutcome.throws "Request timed out after 30 seconds") 0
    (by decide) (by decide)
    (Or.inr ⟨by decide, by decide⟩) trivial

/-- C10: two requests that agree on every field and on the first 1000
characters of `code` are handled identically — same response (validation
outcome included), same sanitized code handed to `FallbackAnalyzer`, and
same prompt messages sent to the backend — because `sanitizeInput` silently
truncates `code` to its first 1000 characters. -/
theorem POST_code_truncation (tokenState : List Int) (now : Int)
    (req1 req2 : AnalyzeRequest) (outcome : BackendOutcome) (rand : Fin 4)
    (c1 c2 : String)
    (hc1 : req1.code = some c1) (hc2 : req2.code = some c2)
    (htrunc : c1.data.take 1000 = c2.data.take 1000)
    (hq : req1.question = req2.question)
    (hl : req1.language = req2.language)
    (hconv : req1.conversation = req2.conversation)
    (hcm : req1.currentMessage = req2.currentMessage)
    (hchat : req1.isChat = req2.isChat) :
    POST tokenState now req1 outcome rand =
      POST tokenState now req2 outcome rand ∧
    sanitizedCodeOf req1.code = sanitizedCodeOf req2.code ∧
    buildRequestMessages req1 = buildRequestMessages req2 := by
  have hsan : sanitizedCodeOf req1.code = sanitizedCodeOf req2.code := by
    rw [hc1, hc2]
    show (if c1 = "" then "" else sanitizeInput c1) =
      (if c2 = "" then "" else sanitizeInput c2)
    by_cases h1 : c1 = ""
    · have h2 : c2 = "" := by
        apply String.ext
        have hz : c2.data.take 1000 = [] := by
          rw [← htrunc, h1]
          rfl
        rcases List.take_eq_nil_iff.mp hz with h | h
        · exact absurd h (by norm_num)
        · exact h
      rw [if_pos h1, if_pos h2]
    · have h2 : c2 ≠ "" := by
        intro he
        apply h1
        apply String.ext
        have hz : c1.data.take 1000 = [] := by
          rw [htrunc, he]
          rfl
        rcases List.take_eq_nil_iff.mp hz with h | h
        · exact absurd h (by norm_num)
        · exact h
      rw [if_neg h1, if_neg h2]
      show (if c1 = "" then "" else String.mk (c1.data.take 1000)) =
        (if c2 = "" then "" else String.mk (c2.data.take 1000))
      rw [if_neg h1, if_neg h2]
      exact congrArg String.mk htrunc
  refine ⟨?_, hsan, ?_⟩
  · unfold POST
    rw [hl, hchat, hsan]
  · unfold buildRequestMessages
    rw [hq, hl, hconv, hcm, hchat, hsan]

/-- Witness for `POST_code_truncation`: two requests whose codes share the
first 1000 characters and differ at position 1001. -/
theorem POST_code_truncation_witness :
    POST [] 0
      { question := some "Implement a function",
        code := some (String.mk (List.replicate 1000 'a') ++ "X"),
        language := some "typescript", conversation := none,
        currentMessage := none, isChat := false }
      (BackendOutcome.message (some "Solid work so far, keep refining it.")
        none) 0 =
    POST [] 0
      { question := some "Implement a function",
        code := some (String.mk (List.replicate 1000 'a') ++ "Y"),
        language := some "typescript", conversation := none,
        currentMessage := none, isChat := false }
      (BackendOutcome.message (some "Solid work so far, keep refining it.")
        none) 0 ∧
    sanitizedCodeOf (some (String.mk (List.replicate 1000 'a') ++ "X")) =
      sanitizedCodeOf (some (String.mk (List.replicate 1000 'a') ++ "Y")) ∧
    buildRequestMessages
      { question := some "Implement a function",
        code := some (String.mk (List.replicate 1000 'a') ++ "X"),
        language := some "typescript", conversation := none,
        currentMessage := none, isChat := false } =
    buildRequestMessages
      { question := some "Implement a function",
        code := some (String.mk (List.replicate 1000 'a') ++ "Y"),
        language := some "typescript", conversation := none,
        currentMessage := none, isChat := false } :=
  POST_code_truncation [] 0 _ _
    (BackendOutcome.message (some "Solid work so far, keep refining it.")
      none) 0
    (String.mk (List.replicate 1000 'a') ++ "X")
    (String.mk (List.replicate 1000 'a') ++ "Y")
    rfl rfl
    (by
      have hx : (String.mk (List.replicate 1000 'a') ++ "X").data =
          List.replicate 1000 'a' ++ ['X'] := rfl
      have hy : (String.mk (List.replicate 1000 'a') ++ "Y").data =
          List.replicate 1000 'a' ++ ['Y'] := rfl
      rw [hx, hy,
        List.take_append_of_le_length (by rw [List.length_replicate]),
        List.take_append_of_le_length (by rw [List.length_replicate])])
    rfl rfl rfl rfl rfl

end EchoCode
